import Mathlib

/-!
Verification of the text-cleaning and chunking pipeline of the LabProject
corpus builder (repository sources under `src/`).

Modelling conventions, used throughout:

* Python strings are modelled as Lean `String` (payloads) or `List Char`
  (when character-level scanning matters).
* Text that the Python code immediately word-splits is carried as its word
  list (`List String`): Python's `" ".join(ws).split() == ws` for the
  non-empty, whitespace-free words produced by `.split()`, so a chunk is
  represented by its word list and a paragraph by its word list.
* Python loops that are not structurally recursive are transcribed with an
  explicit fuel argument; the fuel is always chosen at the call site to be
  an upper bound on the number of iterations (one character or one word is
  consumed per step), except where the Python loop genuinely diverges, in
  which case the transcription returns `none` for every fuel.
* Python's `max(0, a - b)` on ints coincides with Nat truncated
  subtraction `a - b`.
-/

namespace LabProject

/-- Python whitespace test for `str.split()` / `str.strip()` (the inputs in
this development only use ASCII whitespace, for which `Char.isWhitespace`
agrees with Python). -/
def isPyWs (c : Char) : Bool := c.isWhitespace

/-- Scanner underlying `pySplit`: accumulates the current word (reversed)
and splits at whitespace, discarding empty pieces, exactly like Python's
argument-free `str.split()`. -/
def wordsGo (cur : List Char) : List Char → List String
  | [] => if cur.isEmpty then [] else [String.mk cur.reverse]
  | c :: rest =>
    if isPyWs c then
      if cur.isEmpty then wordsGo [] rest
      else String.mk cur.reverse :: wordsGo [] rest
    else wordsGo (c :: cur) rest

/-- Python `text.split()` (split on whitespace runs, no empty words). -/
def pySplit (text : String) : List String := wordsGo [] text.data

/-- Whether `pre` is a (contiguous) leading segment of `l`; models Python
`str.startswith`. -/
def leadsWith : List Char → List Char → Bool
  | [], _ => true
  | _ :: _, [] => false
  | a :: as, b :: bs => a = b && leadsWith as bs

/-- Whether `suf` is a (contiguous) trailing segment of `l`; models Python
`str.endswith`. -/
def trailsWith (suf l : List Char) : Bool := leadsWith suf.reverse l.reverse

/-- Whether `needle` occurs contiguously inside `hay`; models Python's
substring operator `needle in hay`. -/
def occursIn (needle : List Char) : List Char → Bool
  | [] => leadsWith needle []
  | c :: rest => leadsWith needle (c :: rest) || occursIn needle rest

/-- Python `str.strip()` on a character list. -/
def pyStrip (l : List Char) : List Char :=
  ((l.dropWhile isPyWs).reverse.dropWhile isPyWs).reverse

/-- Python `str.upper()`, character-wise (the identifiers this repository
normalizes are ASCII, where `Char.toUpper` agrees with Python). -/
def pyUpper (l : List Char) : List Char := l.map Char.toUpper

/-- Python `str.lower()`, character-wise (ASCII, as above). -/
def pyLower (l : List Char) : List Char := l.map Char.toLower

/-!
### Sliding-window chunker

`split_into_chunks` (`src/chunk_data.py`, lines 33-56) and
`split_into_chunks_words` (`src/code/pilot_chunking.py`, lines 178-196)
are the same loop:

```
words = text.split(); n = len(words); start = 0
while start < n:
    end = min(start + target_words, n)
    chunks.append(" ".join(words[start:end]))
    if end == n: break
    start = max(0, end - overlap_words)
```

`chunkSpansAux` transcribes the loop at the level of the `(start, end)`
index spans; a chunk itself is `words[start:end]`, recovered below by
`List.drop`/`List.take`.  The loop is not structurally recursive, so the
transcription takes a fuel argument bounding the number of iterations and
returns `none` when the loop has not finished within that many iterations
(for `overlap_words < target_words` the fuel `n + 1` used by
`split_into_chunks_spans` is proved sufficient; for
`overlap_words >= target_words` the Python loop really does not
terminate, see the theorem for claim C2).
-/

def chunkSpansAux (n target overlap : Nat) : Nat → Nat → Option (List (Nat × Nat))
  | 0, _ => none
  | fuel + 1, start =>
    if start < n then
      if min (start + target) n = n then
        some [(start, min (start + target) n)]
      else
        match chunkSpansAux n target overlap fuel (min (start + target) n - overlap) with
        | some rest => some ((start, min (start + target) n) :: rest)
        | none => none
    else some []

/-- The `(start, end)` spans of the sliding-window chunker on a word
sequence of length `n`. -/
def split_into_chunks_spans (n target overlap : Nat) : Option (List (Nat × Nat)) :=
  chunkSpansAux n target overlap (n + 1) 0

/-- The sliding-window chunker itself: each chunk is the word slice
`words[start:end]` (its text in Python is the space-join of that slice). -/
def split_into_chunks (text : String) (target overlap : Nat) :
    Option (List (List String)) :=
  let words := pySplit text
  (split_into_chunks_spans words.length target overlap).map
    (List.map (fun sp => (words.drop sp.1).take (sp.2 - sp.1)))

/-!
### Identifier normalization

`norm_pmcid` (`src/code/pilot_paragraph_chunking.py`, lines 67-73; the
variant in `src/code/pilot_chunking.py`, lines 72-85, has the same
behaviour):

```
if not raw: return ""
x = str(raw).strip().upper()
if x.endswith(".TXT"): x = x[:-4]
return "PMC" + x if x.isdigit() else x
```

(the pilot_chunking variant spells the last line as explicit
`startswith("PMC")` / `isdigit()` branches with identical results; both
branch forms are transcribed below).  `str.isdigit()` is modelled by
`Char.isDigit` (the identifiers in this corpus are ASCII).
-/

/-- The characters of `".TXT"`. -/
def txtTail : List Char := ['.', 'T', 'X', 'T']

/-- The characters of `"PMC"`. -/
def pmcLead : List Char := ['P', 'M', 'C']

/-- The strip/uppercase/chop part of `norm_pmcid`: `x = raw.strip().upper()`
followed by `if x.endswith(".TXT"): x = x[:-4]` (`x[:-4]` is
`take (length - 4)`). -/
def pmcCore (raw : List Char) : List Char :=
  if trailsWith txtTail (pyUpper (pyStrip raw)) then
    (pyUpper (pyStrip raw)).take ((pyUpper (pyStrip raw)).length - 4)
  else pyUpper (pyStrip raw)

/-- `norm_pmcid` on a character list: empty (falsy) input maps to the
empty string; a result already starting with `"PMC"` is returned as is; a
bare non-empty digit string receives the `"PMC"` prefix; anything else is
returned as is. -/
def normPmcidL (raw : List Char) : List Char :=
  if raw = [] then []
  else if leadsWith pmcLead (pmcCore raw) then pmcCore raw
  else if pmcCore raw ≠ [] ∧ (pmcCore raw).all Char.isDigit = true then
    pmcLead ++ pmcCore raw
  else pmcCore raw

/-- `norm_pmcid` on strings. -/
def norm_pmcid (s : String) : String := String.mk (normPmcidL s.data)

/-!
### Paragraph-grouping chunker

From `src/code/pilot_paragraph_chunking.py`: `split_into_paragraphs`
(lines 160-163), `split_long_paragraph` (lines 166-170) and
`paragraphs_to_chunks` (lines 173-212).  Paragraphs and chunks are
carried as word lists; a chunk's Python text is the `"\n\n"`-join of its
group, whose `.split()` is the concatenation of the group's word lists,
so a chunk is represented by the flattened word list of its group.
-/

/-- Python's negative-index slice `l[-k:]`: for `k = 0` it is the whole
list (`l[-0:] == l[0:]`), otherwise the last `min k (l.length)`
elements. -/
def pyLastSlice {α : Type} (l : List α) (k : Nat) : List α :=
  if k = 0 then l else l.drop (l.length - k)

/-- The overlap bridge of `paragraphs_to_chunks` (lines 196-201):

```
last_p_words = current_group[-1].split()
bridge = ("[...] " + " ".join(last_p_words[-max_overlap:])
          if len(last_p_words) > max_overlap else current_group[-1])
```

at the word level, with `lastP` the word list of the closed group's last
paragraph. -/
def mkBridge (max_overlap : Nat) (lastP : List String) : List String :=
  if max_overlap < lastP.length then "[...]" :: pyLastSlice lastP max_overlap
  else lastP

/-- Fuelled transcription of the slice comprehension
`[" ".join(words[i : i + target]) for i in range(0, len(words), target)]`;
each step consumes at least one element when `target >= 1`, so the fuel
`l.length` used below is sufficient. -/
def sliceEveryGo {α : Type} (target : Nat) : Nat → List α → List (List α)
  | 0, _ => []
  | _, [] => []
  | fuel + 1, a :: l => (a :: l).take target :: sliceEveryGo target fuel ((a :: l).drop target)

/-- `split_long_paragraph` (lines 166-170): a paragraph of more than
`target` words is cut into consecutive blocks of `target` words (Python
raises `ValueError` on `range(..., 0)`; the `target = 0` case is
unreachable and modelled as `[]`). -/
def split_long_paragraph (p : List String) (target : Nat) : List (List String) :=
  if p.length ≤ target then [p]
  else if target = 0 then []
  else sliceEveryGo target p.length p

/-- The loop body of `paragraphs_to_chunks` (lines 178-212), one step per
paragraph; `group` is `current_group` (each element the word list of a
paragraph or bridge) and `cnt` is `current_count`.  Flushing a group
appends the flattened group as one chunk. -/
def ptcGo (target max_overlap : Nat) :
    List (List String) → List (List String) → Nat → List (List String)
  | [], group, _ => if group = [] then [] else [group.flatten]
  | p :: rest, group, cnt =>
    if target < p.length then
      (if group = [] then [] else [group.flatten]) ++
        split_long_paragraph p target ++ ptcGo target max_overlap rest [] 0
    else if group ≠ [] ∧ target < cnt + p.length then
      group.flatten ::
        ptcGo target max_overlap rest
          [mkBridge max_overlap (group.getLastD []), p]
          ((mkBridge max_overlap (group.getLastD [])).length + p.length)
    else
      ptcGo target max_overlap rest (group ++ [p]) (cnt + p.length)

/-- `paragraphs_to_chunks` (lines 173-212) on word-level paragraphs. -/
def paragraphs_to_chunks (paragraphs : List (List String)) (target max_overlap : Nat) :
    List (List String) :=
  ptcGo target max_overlap paragraphs [] 0

/-- Ghost-instrumented twin of `ptcGo`: identical control flow and chunks,
but each emitted chunk is tagged with `true` exactly when its group was
started by an overlap bridge (pieces of an oversized-paragraph split are
tagged `false`).  Projecting the tags away recovers `ptcGo` (proved
below). -/
def ptcGoB (target max_overlap : Nat) :
    List (List String) → List (List String) → Nat → Bool → List (Bool × List String)
  | [], group, _, b => if group = [] then [] else [(b, group.flatten)]
  | p :: rest, group, cnt, b =>
    if target < p.length then
      (if group = [] then [] else [(b, group.flatten)]) ++
        (split_long_paragraph p target).map (fun c => (false, c)) ++
        ptcGoB target max_overlap rest [] 0 false
    else if group ≠ [] ∧ target < cnt + p.length then
      (b, group.flatten) ::
        ptcGoB target max_overlap rest
          [mkBridge max_overlap (group.getLastD []), p]
          ((mkBridge max_overlap (group.getLastD [])).length + p.length)
          true
    else
      ptcGoB target max_overlap rest (group ++ [p]) (cnt + p.length)
        (if group = [] then false else b)

/-- Tagged variant of `paragraphs_to_chunks`. -/
def paragraphs_to_chunks_tagged (paragraphs : List (List String))
    (target max_overlap : Nat) : List (Bool × List String) :=
  ptcGoB target max_overlap paragraphs [] 0 false

/-!
### Paragraph splitting at the text level

`split_into_paragraphs` (lines 160-163):

```
text = text.replace("\r\n", "\n").replace("\r", "\n").strip()
raw = re.split(r"\n\s*\n+", text)
return [re.sub(r"\s+", " ", p).strip() for p in raw if p.strip()]
```

The separator regex matches inside a whitespace run containing at least
two newlines; since every piece is then whitespace-collapsed, stripped
and (downstream) word-split, the word-level result is: cut the character
stream at every maximal whitespace run containing two or more newlines,
and keep the word lists of the non-blank pieces.
-/

/-- Python `text.replace("\r\n", "\n").replace("\r", "\n")`. -/
def normNewlines : List Char → List Char
  | [] => []
  | '\r' :: '\n' :: rest => '\n' :: normNewlines rest
  | '\r' :: rest => '\n' :: normNewlines rest
  | c :: rest => c :: normNewlines rest

/-- Fuelled scanner cutting a character stream into paragraph pieces at
maximal whitespace runs containing at least two newlines (`cur` holds the
current piece reversed); each step consumes at least one character, so
the fuel `l.length + 1` used below is sufficient. -/
def splitParasGo : Nat → List Char → List Char → List (List Char)
  | 0, cur, _ => [cur.reverse]
  | _ + 1, cur, [] => [cur.reverse]
  | fuel + 1, cur, c :: rest =>
    if isPyWs c then
      if 2 ≤ ((c :: rest.takeWhile isPyWs).count '\n') then
        cur.reverse :: splitParasGo fuel [] (rest.drop (rest.takeWhile isPyWs).length)
      else
        splitParasGo fuel ((c :: rest.takeWhile isPyWs).reverse ++ cur)
          (rest.drop (rest.takeWhile isPyWs).length)
    else splitParasGo fuel (c :: cur) rest

/-- `split_into_paragraphs` at the word level: the word lists of the
non-blank paragraph pieces, in order. -/
def split_into_paragraphs (text : String) : List (List String) :=
  let l := pyStrip (normNewlines text.data)
  ((splitParasGo (l.length + 1) [] l).map (fun piece => wordsGo [] piece)).filter
    (fun p => !p.isEmpty)

/-- The full-text paragraph chunking pipeline of `build_fulltext_chunks`
(lines 237-238): split into paragraphs, then group into chunks. -/
def fulltext_paragraph_chunks (text : String) (target max_overlap : Nat) :
    List (List String) :=
  paragraphs_to_chunks (split_into_paragraphs text) target max_overlap

/-!
### Metadata records and synthesized text payloads

A metadata JSON object is modelled by a record of its optional string
fields (numeric JSON values, e.g. years, are carried as their decimal
strings — the Python code passes them through `str(...)`/`int(...)`).
The `keywords` value can be absent, a string, or a list; list entries are
modelled by the strings they contribute (the pipeline's inputs carry
plain string lists).
-/

inductive KwField where
  | absent : KwField
  | str : String → KwField
  | list : List String → KwField
deriving DecidableEq

structure Meta where
  title : Option String := none
  article_title : Option String := none
  full_title : Option String := none
  title_full : Option String := none
  journal : Option String := none
  journal_title : Option String := none
  journalTitle : Option String := none
  journal_name : Option String := none
  source : Option String := none
  year : Option String := none
  pubYear : Option String := none
  publication_year : Option String := none
  pub_year : Option String := none
  publicationYear : Option String := none
  firstPublicationDate : Option String := none
  pubDate : Option String := none
  date : Option String := none
  abstractText : Option String := none
  abstract : Option String := none
  abstract_text : Option String := none
  keywords : KwField := KwField.absent
deriving DecidableEq

/-- Python `a or b` on optional strings: the first truthy operand
(`None` and `""` are falsy; an all-falsy chain is observationally
`none`). -/
def pyOrS (a b : Option String) : Option String :=
  match a with
  | some s => if s = "" then b else some s
  | none => b

/-- `extract_title` (`pilot_chunking.py`, lines 259-265). -/
def extract_title (m : Meta) : Option String :=
  pyOrS m.title (pyOrS m.article_title (pyOrS m.full_title m.title_full))

/-- `extract_journal` (`pilot_chunking.py`, lines 249-256). -/
def extract_journal (m : Meta) : Option String :=
  pyOrS m.journal (pyOrS m.journal_title (pyOrS m.journalTitle
    (pyOrS m.journal_name m.source)))

/-- `extract_abstract` (`pilot_chunking.py`, lines 285-290). -/
def extract_abstract (m : Meta) : Option String :=
  pyOrS m.abstractText (pyOrS m.abstract m.abstract_text)

/-- Decimal value of a digit list. -/
def natOfDigits (ds : List Char) : Nat :=
  ds.foldl (fun acc c => 10 * acc + (c.toNat - 48)) 0

/-- Python `int(c)` on a string: optional sign and decimal digits after
stripping whitespace, `none` (a raised `ValueError`) otherwise. -/
def pyToInt (s : String) : Option Int :=
  match pyStrip s.data with
  | [] => none
  | '-' :: ds =>
    if ds ≠ [] ∧ ds.all Char.isDigit = true then some (-(Int.ofNat (natOfDigits ds)))
    else none
  | '+' :: ds =>
    if ds ≠ [] ∧ ds.all Char.isDigit = true then some (Int.ofNat (natOfDigits ds))
    else none
  | ds =>
    if ds.all Char.isDigit = true then some (Int.ofNat (natOfDigits ds))
    else none

/-- The candidate loop of `extract_year` (`pilot_chunking.py`, lines
268-282): skip `None` fields, return the first successful `int(...)`. -/
def extractYearGo : List (Option String) → Option Int
  | [] => none
  | none :: rest => extractYearGo rest
  | some c :: rest =>
    match pyToInt c with
    | some n => some n
    | none => extractYearGo rest

def extract_year (m : Meta) : Option Int :=
  extractYearGo [m.year, m.pubYear, m.publication_year, m.pub_year]

/-- `extract_keywords` (`pilot_chunking.py`, lines 293-312): falsy
keywords give `None`; a string is returned as is; a list is joined with
`"; "`. -/
def extract_keywords (m : Meta) : Option String :=
  match m.keywords with
  | KwField.absent => none
  | KwField.str s => if s = "" then none else some s
  | KwField.list l => if l = [] then none else some (String.intercalate "; " l)

/-- `build_metadata_text` (`pilot_chunking.py`, lines 315-343): labelled
`"Title: ..."`, `"Journal / Year: ..."`, `"Abstract: ..."`,
`"Keywords: ..."` parts for the truthy fields, joined with blank lines
and stripped. -/
def build_metadata_text (m : Meta) : String :=
  let titlePart := match extract_title m with
    | some t => if t = "" then [] else ["Title: " ++ t]
    | none => []
  let journalBits :=
    (match extract_journal m with
      | some j => if j = "" then [] else [j]
      | none => []) ++
    (match extract_year m with
      | some n => [toString n]
      | none => [])
  let journalPart :=
    if journalBits = [] then []
    else ["Journal / Year: " ++ String.intercalate ", " journalBits]
  let abstractPart := match extract_abstract m with
    | some a => if a = "" then [] else ["Abstract: " ++ a]
    | none => []
  let kwPart := match extract_keywords m with
    | some k => if k = "" then [] else ["Keywords: " ++ k]
    | none => []
  String.mk (pyStrip (String.intercalate "\n\n"
    (titlePart ++ journalPart ++ abstractPart ++ kwPart)).data)

/-- `meta_text_payload` (`pilot_paragraph_chunking.py`, lines 134-154):
the paragraph pipeline's synthesized payload — stripped title, stripped
abstract and a `"Keywords: ..."` part, with NO `"Title: "`/`"Abstract: "`
labels, joined with blank lines and stripped. -/
def meta_text_payload (m : Meta) : String :=
  let titlePart := match pyOrS m.title m.article_title with
    | some t => if t = "" then [] else [String.mk (pyStrip t.data)]
    | none => []
  let abstractPart := match pyOrS m.abstract m.abstractText with
    | some a => if a = "" then [] else [String.mk (pyStrip a.data)]
    | none => []
  let kwPart := match m.keywords with
    | KwField.list l => if l = [] then [] else ["Keywords: " ++ String.intercalate ", " l]
    | KwField.str s =>
      if pyStrip s.data = [] then [] else ["Keywords: " ++ String.mk (pyStrip s.data)]
    | KwField.absent => []
  let parts := (titlePart ++ abstractPart ++ kwPart).filter (fun p => p ≠ "")
  String.mk (pyStrip (String.intercalate "\n\n" parts).data)

/-- The metadata-only article of spec scenario 3: title `"X"`, abstract
`"Y"`, every other field absent. -/
def metaTitleXAbstractY : Meta := { title := some "X", abstract := some "Y" }

/-!
### Year extraction and the unknown-year partition

From `pilot_paragraph_chunking.py`: `meta_year` (lines 117-131),
`build_metadata_only_chunks` (lines 260-288) and the UNKNOWN_YEAR branch
of `run_full_corpus` (lines 539-592).
-/

/-- `re.search(r"(19|20)\d{2}", s)`: the leftmost four-character window
starting with `19` or `20` and continuing with two digits, as a number. -/
def findYear4 : List Char → Option Nat
  | [] => none
  | c :: rest =>
    match rest with
    | c2 :: c3 :: c4 :: _ =>
      if ((c = '1' ∧ c2 = '9') ∨ (c = '2' ∧ c2 = '0')) ∧
          c3.isDigit = true ∧ c4.isDigit = true then
        some (1000 * (c.toNat - 48) + 100 * (c2.toNat - 48) +
          10 * (c3.toNat - 48) + (c4.toNat - 48))
      else findYear4 rest
    | _ => none

/-- The field loop of `meta_year`: skip falsy fields, return the first
regex hit. -/
def metaYearGo : List (Option String) → Option Nat
  | [] => none
  | none :: rest => metaYearGo rest
  | some v :: rest =>
    if v = "" then metaYearGo rest
    else
      match findYear4 v.data with
      | some y => some y
      | none => metaYearGo rest

/-- `meta_year` (lines 117-131). -/
def meta_year (m : Meta) : Option Nat :=
  metaYearGo [m.year, m.pubYear, m.publicationYear, m.firstPublicationDate,
    m.pubDate, m.date]

/-- One emitted chunk record (the lean schema of
`build_metadata_only_chunks`); the text is carried at the word level as
elsewhere. -/
structure ChunkRec where
  chunk_id : String
  pmcid : String
  year : Option Nat
  chunk_index : Nat
  title : Option String
  journal : Option String
  source_type : String
  text : List String
deriving DecidableEq

/-- Python `f"{idx:04d}"`. -/
def pad4 (n : Nat) : String :=
  String.mk (List.replicate (4 - (toString n).length) '0' ++ (toString n).data)

/-- `build_metadata_only_chunks` (lines 260-288): synthesize the payload,
chunk it with the paragraph strategy, and wrap each chunk with its
metadata; the chunk id is `f"{year}_{pmcid}_META_{idx:04d}"` with a
1-based index. -/
def build_metadata_only_chunks (year : Nat) (pmcid : String) (m : Meta)
    (target max_overlap : Nat) : List ChunkRec :=
  if meta_text_payload m = "" then []
  else
    (paragraphs_to_chunks (split_into_paragraphs (meta_text_payload m))
        target max_overlap).enum.map
      (fun ic =>
        { chunk_id := toString year ++ "_" ++ pmcid ++ "_META_" ++ pad4 (ic.1 + 1)
          pmcid := pmcid
          year := some year
          chunk_index := ic.1 + 1
          title := pyOrS m.title m.article_title
          journal := pyOrS m.journal (pyOrS m.journalTitle m.source)
          source_type := "metadata_only"
          text := ic.2 })

/-- The UNKNOWN_YEAR branch of `run_full_corpus` (lines 564-592): build
the chunks with pseudo-year 0, then patch each record to `year = None`
and replace the leading `"0_"` of the chunk id with `"UNKNOWN_YEAR_"`. -/
def unknown_year_chunks (pmcid : String) (m : Meta) (target max_overlap : Nat) :
    List ChunkRec :=
  (build_metadata_only_chunks 0 pmcid m target max_overlap).map
    (fun ch =>
      { ch with
          year := none
          chunk_id := "UNKNOWN_YEAR_" ++ ch.chunk_id.drop 2 })

/-- The grouping `meta_by_year.setdefault(meta_year(meta), ...)` of
`run_full_corpus` (lines 355-358): the records whose extracted year is
`y`, in input order. -/
def meta_by_year_group (records : List (String × Meta)) (y : Option Nat) :
    List (String × Meta) :=
  records.filter (fun pm => meta_year pm.2 = y)

/-- The records written to the UNKNOWN_YEAR partition file (lines
564-592): every unknown-year record's patched chunks, in order. -/
def unknown_partition_chunks (records : List (String × Meta))
    (target max_overlap : Nat) : List ChunkRec :=
  (meta_by_year_group records none).flatMap
    (fun pm => unknown_year_chunks pm.1 pm.2 target max_overlap)

/-!
### Keyword relevance classifier

`KEYWORD_TERMS` (`src/build_corpus.py`, lines 46-110) and
`article_matches_keywords` (lines 368-379; the variant in
`src/code/fixed_updated_build_corpus.py`, lines 236-253, differs only in
an extra `abstractText` fallback).
-/

def KEYWORD_TERMS : List String :=
  ["microbiome", "gut microbiota", "metagenomics", "microbiome bioinformatics",
   "shotgun metagenomics", "functional metagenomics", "metagenomic sequencing",
   "gene", "genes", "gene expression", "transcriptomics", "metatranscriptomics",
   "functional genes", "gene regulation", "gene ontology", "kegg",
   "host gene expression", "microbiome-gene interactions", "gene pathways",
   "metabolite", "metabolites", "metabolism", "metabolomics",
   "metabolic pathway", "metabolic network", "metabolomic profiling",
   "metabolite production", "short-chain fatty acids", "scfa", "butyrate",
   "acetate", "propionate", "metabolic reconstruction", "metabolic modeling",
   "microbiome-metabolome", "microbial metabolism", "metabolic capacity",
   "mimosa", "mimosa2",
   "bacteria", "bacterial", "microbiota", "microbial", "microbial community",
   "microbial species", "gut flora", "gut bacteria", "16s rna", "16s rrna",
   "taxonomy", "firmicutes", "bacteroidetes", "proteobacteria",
   "actinobacteria", "escherichia", "bifidobacterium", "lactobacillus",
   "akkermansia", "prevotella"]

/-- The two fields of an article record that the classifier reads. -/
structure KwArticle where
  title : Option String := none
  abstract : Option String := none

/-- Python `article.get(k) or ""`. -/
def pyOrEmpty (o : Option String) : String :=
  match o with
  | some s => s
  | none => ""

/-- `article_matches_keywords` (`build_corpus.py`, lines 368-379): build a
lowercase haystack from title and abstract, append the lowercased clean
text when it is truthy, and test every keyword for substring
occurrence. -/
def article_matches_keywords (a : KwArticle) (clean_text : Option String) : Bool :=
  let hay0 := pyLower ((pyOrEmpty a.title ++ " " ++ pyOrEmpty a.abstract).data)
  let hay := match clean_text with
    | some ct => if ct = "" then hay0 else hay0 ++ ' ' :: pyLower ct.data
    | none => hay0
  KEYWORD_TERMS.any (fun kw => occursIn kw.data hay)

/-!
### Text normalizer and structured-text extractor

`_normalize_text` (`src/build_corpus.py`, lines 215-222):

```
text = html.unescape(text)
text = re.sub(r"\s+", " ", text)
text = re.sub(r"\[[0-9,\-– ]+\]", "", text)
text = text.strip()
text = re.sub(r"^([A-Za-z]+)([A-Z])", r"\1 \2", text)
text = re.sub(r"([.!?])([A-Z]{2,})([A-Z][a-z])", r"\1 \2 \3", text)
return text
```

Each regex substitution is transcribed as a character scanner with the
same matching semantics (leftmost, non-overlapping, greedy groups).
`html.unescape` is modelled on the basic XML entities; the titles and
paragraphs considered here contain no entity references.
-/

/-- `html.unescape`, restricted to the basic named/numeric entities. -/
def htmlUnescape : List Char → List Char
  | [] => []
  | '&' :: 'a' :: 'm' :: 'p' :: ';' :: rest => '&' :: htmlUnescape rest
  | '&' :: 'l' :: 't' :: ';' :: rest => '<' :: htmlUnescape rest
  | '&' :: 'g' :: 't' :: ';' :: rest => '>' :: htmlUnescape rest
  | '&' :: 'q' :: 'u' :: 'o' :: 't' :: ';' :: rest => '"' :: htmlUnescape rest
  | '&' :: 'a' :: 'p' :: 'o' :: 's' :: ';' :: rest => '\'' :: htmlUnescape rest
  | '&' :: '#' :: '3' :: '9' :: ';' :: rest => '\'' :: htmlUnescape rest
  | c :: rest => c :: htmlUnescape rest

/-- `re.sub(r"\s+", " ", text)`: collapse whitespace runs to one space
(`prevWs` remembers whether the previous character was whitespace). -/
def collapseWsGo (prevWs : Bool) : List Char → List Char
  | [] => []
  | c :: rest =>
    if isPyWs c then
      if prevWs then collapseWsGo true rest else ' ' :: collapseWsGo true rest
    else c :: collapseWsGo false rest

def collapseWs (l : List Char) : List Char := collapseWsGo false l

/-- The character class `[0-9,\-– ]` of the citation-marker regex. -/
def isCiteChar (c : Char) : Bool :=
  c.isDigit || c = ',' || c = '-' || c = '–' || c = ' '

/-- `re.sub(r"\[[0-9,\-– ]+\]", "", text)`: drop bracketed runs of
citation characters.  `acc = some a` means a `'['` was read and `a`
(reversed) holds the class characters seen since; on failure the scan
restarts after the opening bracket, as the regex engine would. -/
def rmCiteGo (acc : Option (List Char)) : List Char → List Char
  | [] =>
    match acc with
    | none => []
    | some a => '[' :: a.reverse
  | c :: rest =>
    match acc with
    | none => if c = '[' then rmCiteGo (some []) rest else c :: rmCiteGo none rest
    | some a =>
      if c = ']' then
        if a = [] then '[' :: ']' :: rmCiteGo none rest
        else rmCiteGo none rest
      else if isCiteChar c then rmCiteGo (some (c :: a)) rest
      else if c = '[' then '[' :: a.reverse ++ rmCiteGo (some []) rest
      else '[' :: a.reverse ++ c :: rmCiteGo none rest

def rmCitations (l : List Char) : List Char := rmCiteGo none l

/-- `re.sub(r"^([A-Za-z]+)([A-Z])", r"\1 \2", text)`: with `P` the
maximal alphabetic run at position 0, the greedy group 1 makes the match
split at the LAST index `k >= 1` of `P` holding an uppercase letter; the
replacement inserts one space before that index.  No index means no
match. -/
def boundaryFix1 (l : List Char) : List Char :=
  match ((List.range (l.takeWhile Char.isAlpha).length).filter
      (fun k => decide (1 ≤ k) &&
        ((l.takeWhile Char.isAlpha).getD k ' ').isUpper)).getLast? with
  | some k => (l.takeWhile Char.isAlpha).take k ++ ' ' :: l.drop k
  | none => l

def isSentPunct (c : Char) : Bool := c = '.' || c = '!' || c = '?'

/-- `re.sub(r"([.!?])([A-Z]{2,})([A-Z][a-z])", r"\1 \2 \3", text)`: after
a sentence punctuation mark, a maximal uppercase run of length `m >= 3`
followed by a lowercase letter matches with group 2 the first `m - 1`
capitals and group 3 the last capital plus the lowercase letter; spaces
are inserted around group 2 and scanning resumes after the match.  The
fuel bounds the number of steps (at least one character is consumed per
step, so `l.length + 1` suffices). -/
def boundaryFix2Go : Nat → List Char → List Char
  | 0, l => l
  | _ + 1, [] => []
  | fuel + 1, c :: rest =>
    if isSentPunct c then
      if 3 ≤ (rest.takeWhile Char.isUpper).length ∧
          ((rest.drop (rest.takeWhile Char.isUpper).length).headD ' ').isLower = true then
        c :: ' ' ::
          ((rest.takeWhile Char.isUpper).take ((rest.takeWhile Char.isUpper).length - 1) ++
            ' ' :: (rest.takeWhile Char.isUpper).drop ((rest.takeWhile Char.isUpper).length - 1)) ++
          ((rest.drop (rest.takeWhile Char.isUpper).length).headD ' ') ::
          boundaryFix2Go fuel (rest.drop (rest.takeWhile Char.isUpper).length).tail
      else c :: boundaryFix2Go fuel rest
    else c :: boundaryFix2Go fuel rest

def boundaryFix2 (l : List Char) : List Char := boundaryFix2Go (l.length + 1) l

/-- `_normalize_text` (`build_corpus.py`, lines 215-222). -/
def normalize_text (s : String) : String :=
  String.mk (boundaryFix2 (boundaryFix1 (pyStrip (rmCitations
    (collapseWs (htmlUnescape s.data))))))

/-- `UNWANTED_SECTION_TITLES` (`build_corpus.py`, lines 255-273). -/
def UNWANTED_SECTION_TITLES : List String :=
  ["acknowledgements", "acknowledgments", "funding", "author contributions",
   "authors contributions", "authors’ contributions",
   "authors\x27 contributions", "data availability", "availability of data",
   "supplementary material", "supplementary materials", "competing interests",
   "conflict of interest", "publishers note", "publisher\x27s note",
   "publisher’s note", "references"]

/-- `_should_skip_section` (`build_corpus.py`, lines 276-279): strip and
lowercase the title, drop every character that is not a lowercase letter
or whitespace (`re.sub(r"[^a-z\s]", "", t)`), and test membership in the
exclusion set. -/
def should_skip_section (title_text : String) : Bool :=
  UNWANTED_SECTION_TITLES.contains
    (String.mk ((pyLower (pyStrip title_text.data)).filter
      (fun c => c.isLower || c.isWhitespace)))

/-!
### Markup tree and `_extract_body_from_sec`

An element is modelled by its local name and, for the text-bearing kinds,
the flattened text `"".join(elem.itertext())` of its subtree; `sec` and
`list` elements carry their child lists.  `_extract_body_from_sec`
(`build_corpus.py`, lines 282-314) first locates the first `title` child,
returns nothing if its normalized text matches the exclusion set, and
otherwise emits the title followed by the recursively extracted children
(`p` and list items one block each, `fig`/`figure`/`table-wrap`/
`caption`/`tbl` and unknown kinds skipped).  The recursion is transcribed
with a fuel argument (first pattern position, structurally decreasing)
that bounds the traversal size; call sites use a fuel larger than the
size of the concrete tree. -/

inductive Node where
  | title : String → Node
  | para : String → Node
  | list : List Node → Node
  | listItem : String → Node
  | fig : Node
  | tableWrap : Node
  | caption : Node
  | tbl : Node
  | sec : List Node → Node
  | other : Node

/-- The first `title` child of a section, if any (lines 283-288). -/
def firstTitleText : List Node → Option String
  | [] => none
  | Node.title s :: _ => some s
  | _ :: rest => firstTitleText rest

/-- The `list-item` texts of a `list` element's children (lines
304-310). -/
def liTexts : List Node → List String
  | [] => []
  | Node.listItem s :: rest =>
    (if normalize_text s ≠ "" then [normalize_text s] else []) ++ liTexts rest
  | _ :: rest => liTexts rest

/-- Fuelled transcription of `_extract_body_from_sec`; mode `true` enters
a section (title lookup and skip check, lines 283-295), mode `false`
walks a child list (lines 297-314). -/
def extractGo : Nat → Bool → List Node → List String
  | 0, _, _ => []
  | fuel + 1, true, children =>
    match firstTitleText children with
    | some raw =>
      if normalize_text raw ≠ "" ∧ should_skip_section (normalize_text raw) = true then
        []
      else
        (if normalize_text raw ≠ "" then [normalize_text raw] else []) ++
          extractGo fuel false children
    | none => extractGo fuel false children
  | _ + 1, false, [] => []
  | fuel + 1, false, n :: rest =>
    (match n with
      | Node.para s => if normalize_text s ≠ "" then [normalize_text s] else []
      | Node.list items => liTexts items
      | Node.sec cs => extractGo fuel true cs
      | _ => []) ++ extractGo fuel false rest

/-- `_extract_body_from_sec` on the children of a `sec` element. -/
def extract_body_from_sec (fuel : Nat) (children : List Node) : List String :=
  extractGo fuel true children

-- ===================================================================
-- Theorems
-- ===================================================================

theorem chunkSpansAux_mem (n target overlap : Nat) :
    ∀ fuel start l, chunkSpansAux n target overlap fuel start = some l →
      ∀ sp ∈ l, sp.1 < n ∧ sp.2 = min (sp.1 + target) n := by
  intro fuel
  induction fuel with
  | zero => intro start l h; simp [chunkSpansAux] at h
  | succ f ih =>
    intro start l h sp hsp
    by_cases hs : start < n
    · by_cases he : min (start + target) n = n
      · simp [chunkSpansAux, hs, he] at h
        subst h
        simp at hsp
        subst hsp
        exact ⟨hs, by omega⟩
      · simp only [chunkSpansAux, if_pos hs, if_neg he] at h
        cases hrec : chunkSpansAux n target overlap f (min (start + target) n - overlap) with
        | none => rw [hrec] at h; simp at h
        | some rest =>
          rw [hrec] at h
          simp at h
          subst h
          rcases List.mem_cons.mp hsp with h1 | h2
          · subst h1; exact ⟨hs, rfl⟩
          · exact ih _ rest hrec sp h2
    · simp [chunkSpansAux, hs] at h
      subst h
      simp at hsp

theorem chunkSpansAux_some (n target overlap : Nat) (hov : overlap < target) :
    ∀ fuel start, n - start < fuel → start < n →
      ∃ l, chunkSpansAux n target overlap fuel start = some l ∧
        l.head? = some (start, min (start + target) n) ∧
        List.Chain' (fun a b : Nat × Nat => b.1 = a.1 + (target - overlap)) l ∧
        l.getLast?.map Prod.snd = some n := by
  intro fuel
  induction fuel with
  | zero => intro start h; omega
  | succ f ih =>
    intro start hf hs
    by_cases he : min (start + target) n = n
    · refine ⟨[(start, min (start + target) n)], ?_, rfl, ?_, ?_⟩
      · simp [chunkSpansAux, hs, he]
      · simp
      · simp [he]
    · have he2 : min (start + target) n = start + target := by omega
      have hlt : start + target < n := by omega
      have hnext : min (start + target) n - overlap = start + (target - overlap) := by
        omega
      obtain ⟨l', hl', hh', hc', hg'⟩ :=
        ih (start + (target - overlap)) (by omega) (by omega)
      refine ⟨(start, min (start + target) n) :: l', ?_, rfl, ?_, ?_⟩
      · simp only [chunkSpansAux, if_pos hs, if_neg he]
        rw [hnext, hl']
      · rw [List.chain'_cons']
        constructor
        · intro b hb
          rw [hh'] at hb
          simp at hb
          subst hb
          simp
        · exact hc'
      · cases l' with
        | nil => simp at hh'
        | cons a l'' => rw [List.getLast?_cons_cons]; exact hg'

/-- C1.  Sliding-window chunking correctness: on 1400 words with
`target_words = 650` and `overlap_words = 150` the chunker produces
exactly the three spans `[0:650]`, `[500:1150]`, `[1000:1400]`; and for
every non-empty word sequence with `overlap_words < target_words` the
chunking loop completes, the first chunk starts at offset 0, successive
start offsets advance by exactly `target_words - overlap_words`, and the
last chunk's end offset is the length of the word sequence. -/
theorem C1_sliding_window_spans :
    split_into_chunks_spans 1400 650 150 =
        some [(0, 650), (500, 1150), (1000, 1400)] ∧
    ∀ n target overlap : Nat, 0 < n → overlap < target →
      ∃ l, split_into_chunks_spans n target overlap = some l ∧
        l.head? = some (0, min target n) ∧
        List.Chain' (fun a b : Nat × Nat => b.1 = a.1 + (target - overlap)) l ∧
        l.getLast?.map Prod.snd = some n := by
  constructor
  · decide
  · intro n target overlap hn hov
    obtain ⟨l, hl, hh, hc, hg⟩ :=
      chunkSpansAux_some n target overlap hov (n + 1) 0 (by omega) hn
    exact ⟨l, hl, by simpa using hh, hc, hg⟩

/-- Witness for C1 at a small concrete input: 5 words, target 3,
overlap 1. -/
theorem C1_sliding_window_spans_witness :
    ∃ l, split_into_chunks_spans 5 3 1 = some l ∧
      l.head? = some (0, min 3 5) ∧
      List.Chain' (fun a b : Nat × Nat => b.1 = a.1 + (3 - 1)) l ∧
      l.getLast?.map Prod.snd = some 5 :=
  C1_sliding_window_spans.2 5 3 1 (by decide) (by decide)

/-- C2.  The spec asks that the start offset advance by at least one word
per step even when `overlap_words >= target_words`, so that the loop
terminates.  The code has no such clamp: with two words,
`target_words = 1`, `overlap_words = 1`, the loop recomputes
`start = max(0, 1 - 1) = 0` forever, so the transcription returns `none`
for every fuel — the Python loop never terminates on this input. -/
theorem C2_sliding_window_no_advance_clamp :
    (∀ fuel, chunkSpansAux 2 1 1 fuel 0 = none) ∧
    split_into_chunks_spans 2 1 1 = none ∧
    split_into_chunks "w w" 1 1 = none := by
  have h : ∀ fuel, chunkSpansAux 2 1 1 fuel 0 = none := by
    intro fuel
    induction fuel with
    | zero => rfl
    | succ f ih => simp [chunkSpansAux, ih]
  exact ⟨h, h 3, by decide⟩

theorem mkBridge_length_le (max_overlap : Nat) (h : 1 ≤ max_overlap)
    (lastP : List String) :
    (mkBridge max_overlap lastP).length ≤ max_overlap + 1 := by
  rw [mkBridge]
  split
  · next hlt =>
    rw [pyLastSlice, if_neg (by omega)]
    simp only [List.length_cons, List.length_drop]
    omega
  · next hge => omega

theorem sliceEveryGo_length_le {α : Type} (target : Nat) :
    ∀ fuel (l : List α), ∀ c ∈ sliceEveryGo target fuel l, c.length ≤ target := by
  intro fuel
  induction fuel with
  | zero => intro l c hc; simp [sliceEveryGo] at hc
  | succ f ih =>
    intro l c hc
    cases l with
    | nil => simp [sliceEveryGo] at hc
    | cons a l' =>
      rcases List.mem_cons.mp hc with h1 | h2
      · subst h1
        simp only [List.length_take]
        omega
      · exact ih _ c h2

theorem sliceEveryGo_ne_nil {α : Type} (target : Nat) (ht : 1 ≤ target) :
    ∀ fuel (l : List α), ∀ c ∈ sliceEveryGo target fuel l, c ≠ [] := by
  intro fuel
  induction fuel with
  | zero => intro l c hc; simp [sliceEveryGo] at hc
  | succ f ih =>
    intro l c hc
    cases l with
    | nil => simp [sliceEveryGo] at hc
    | cons a l' =>
      rcases List.mem_cons.mp hc with h1 | h2
      · subst h1
        obtain ⟨k, rfl⟩ : ∃ k, target = k + 1 := ⟨target - 1, by omega⟩
        simp [List.take_succ_cons]
      · exact ih _ c h2

theorem split_long_paragraph_length_le (p : List String) (target : Nat) :
    ∀ c ∈ split_long_paragraph p target, c.length ≤ target := by
  intro c hc
  rw [split_long_paragraph] at hc
  split at hc
  · next hle => simp at hc; subst hc; exact hle
  · split at hc
    · simp at hc
    · exact sliceEveryGo_length_le target _ _ c hc

theorem split_long_paragraph_ne_nil (p : List String) (target : Nat)
    (ht : 1 ≤ target) (hp : p ≠ []) :
    ∀ c ∈ split_long_paragraph p target, c ≠ [] := by
  intro c hc
  rw [split_long_paragraph] at hc
  split at hc
  · simp at hc; subst hc; exact hp
  · split at hc
    · omega
    · exact sliceEveryGo_ne_nil target ht _ _ c hc

theorem ptcGoB_map_snd (target max_overlap : Nat) :
    ∀ rest group cnt b,
      (ptcGoB target max_overlap rest group cnt b).map Prod.snd =
        ptcGo target max_overlap rest group cnt := by
  intro rest
  induction rest with
  | nil =>
    intro group cnt b
    by_cases hg : group = [] <;> simp [ptcGoB, ptcGo, hg]
  | cons p rest ih =>
    intro group cnt b
    by_cases h1 : target < p.length
    · by_cases hg : group = [] <;>
        simp [ptcGoB, ptcGo, h1, hg, ih, List.map_map, Function.comp_def]
    · by_cases h2 : group ≠ [] ∧ target < cnt + p.length
      · simp [ptcGoB, ptcGo, h1, h2, ih]
      · simp [ptcGoB, ptcGo, h1, h2, ih]

theorem tagged_pair_spec (target max_overlap : Nat) (b : Bool) (g : List String)
    (hf : b = false → g.length ≤ target)
    (htr : b = true → g.length ≤ target + max_overlap + 1) :
    (Prod.snd (b, g)).length ≤ target + max_overlap + 1 ∧
    (Prod.fst (b, g) = false → (Prod.snd (b, g)).length ≤ target) := by
  dsimp only
  cases b
  · exact ⟨Nat.le_trans (hf rfl) (by omega), fun _ => hf rfl⟩
  · exact ⟨htr rfl, fun h => nomatch h⟩

theorem ptcGoB_bounds (target max_overlap : Nat) (ht : 1 ≤ target)
    (hmo : 1 ≤ max_overlap) :
    ∀ rest group cnt b,
      cnt = group.flatten.length →
      (b = false → cnt ≤ target) →
      (b = true → cnt ≤ target + max_overlap + 1) →
      ∀ x ∈ ptcGoB target max_overlap rest group cnt b,
        x.2.length ≤ target + max_overlap + 1 ∧
        (x.1 = false → x.2.length ≤ target) := by
  intro rest
  induction rest with
  | nil =>
    intro group cnt b hcnt hf htr x hx
    subst hcnt
    by_cases hg : group = []
    · simp [ptcGoB, hg] at hx
    · simp only [ptcGoB, if_neg hg, List.mem_singleton] at hx
      subst hx
      exact tagged_pair_spec target max_overlap b _ hf htr
  | cons p rest ih =>
    intro group cnt b hcnt hf htr x hx
    subst hcnt
    by_cases h1 : target < p.length
    · simp only [ptcGoB, if_pos h1, List.mem_append] at hx
      rcases hx with (hx0 | hxs) | hx2
      · by_cases hg : group = []
        · simp [hg] at hx0
        · simp only [if_neg hg, List.mem_singleton] at hx0
          subst hx0
          exact tagged_pair_spec target max_overlap b _ hf htr
      · obtain ⟨c, hc, rfl⟩ := List.mem_map.mp hxs
        have hcl := split_long_paragraph_length_le p target c hc
        exact tagged_pair_spec target max_overlap false c (fun _ => hcl)
          (fun h => nomatch h)
      · exact ih [] 0 false (by simp) (fun _ => by omega) (fun _ => by omega) x hx2
    · by_cases h2 : group ≠ [] ∧ target < group.flatten.length + p.length
      · simp only [ptcGoB, if_neg h1, if_pos h2, List.mem_cons] at hx
        rcases hx with hx0 | hx1
        · subst hx0
          exact tagged_pair_spec target max_overlap b _ hf htr
        · refine ih _ _ _ ?_ ?_ ?_ x hx1
          · simp
          · intro h; exact nomatch h
          · intro _
            have hb := mkBridge_length_le max_overlap hmo (group.getLastD [])
            omega
      · simp only [ptcGoB, if_neg h1, if_neg h2] at hx
        refine ih _ _ _ ?_ ?_ ?_ x hx
        · simp
        · intro hb'
          by_cases hg : group = []
          · subst hg; simp; omega
          · rw [if_neg hg] at hb'
            have := hf hb'
            have : group.flatten.length + p.length ≤ target := by
              rcases not_and_or.mp h2 with h | h
              · exact absurd hg (by simpa using h)
              · omega
            omega
        · intro hb'
          by_cases hg : group = []
          · simp [hg] at hb'
          · rw [if_neg hg] at hb'
            have : group.flatten.length + p.length ≤ target := by
              rcases not_and_or.mp h2 with h | h
              · exact absurd hg (by simpa using h)
              · omega
            omega

/-- C3 (amended).  For `max_overlap_words >= 1` the bridge carried from a
closed chunk into the next is: the last paragraph verbatim when that
paragraph has at most `max_overlap_words` words, and otherwise the
ellipsis marker followed by exactly the last `max_overlap_words` words of
that paragraph; in both cases the bridge carries at most
`max_overlap_words` words plus the one-token marker.  (For
`max_overlap_words = 0` the claim fails on the code: Python's `l[-0:]`
slice is the whole list, see the counterexample.) -/
theorem C3_bridge_bounded :
    ∀ (max_overlap : Nat) (lastP : List String), 1 ≤ max_overlap →
      (lastP.length ≤ max_overlap → mkBridge max_overlap lastP = lastP) ∧
      (max_overlap < lastP.length →
        mkBridge max_overlap lastP =
            "[...]" :: lastP.drop (lastP.length - max_overlap) ∧
        (lastP.drop (lastP.length - max_overlap)).length = max_overlap) ∧
      (mkBridge max_overlap lastP).length ≤ max_overlap + 1 := by
  intro max_overlap lastP h
  refine ⟨?_, ?_, mkBridge_length_le max_overlap h lastP⟩
  · intro hle
    rw [mkBridge, if_neg (by omega)]
  · intro hlt
    rw [mkBridge, if_pos hlt, pyLastSlice, if_neg (by omega)]
    refine ⟨rfl, ?_⟩
    simp only [List.length_drop]
    omega

/-- Witness for C3 at `max_overlap = 1` and a two-word last paragraph. -/
theorem C3_bridge_bounded_witness :
    mkBridge 1 ["a", "b"] = "[...]" :: (["a", "b"].drop (["a", "b"].length - 1)) ∧
    ((["a", "b"] : List String).drop (["a", "b"].length - 1)).length = 1 :=
  (C3_bridge_bounded 1 ["a", "b"] (by decide)).2.1 (by decide)

/-- Counterexample for C3 as stated: with `max_overlap_words = 0` the
claim demands a bridge of the marker followed by the last zero words,
i.e. `["[...]"]`, but Python's `last_p_words[-0:]` is the whole word
list, so the bridge is the marker followed by the entire paragraph and
exceeds the bound; the second chunk below carries the 2-word bridge. -/
theorem C3_zero_overlap_counterexample :
    mkBridge 0 ["a", "b"] = ["[...]", "a", "b"] ∧
    mkBridge 0 ["a", "b"] ≠ ["[...]"] ∧
    paragraphs_to_chunks [["a", "b"], ["c"]] 2 0 =
      [["a", "b"], ["[...]", "a", "b", "c"]] := by
  refine ⟨rfl, by decide, rfl⟩

/-- C9 (amended).  For `target_words >= 1` and `max_overlap_words >= 1`:
every chunk of the paragraph-grouping strategy has at most
`target_words + max_overlap_words + 1` words (the extra token being the
bridge's ellipsis marker); every piece of an oversized-paragraph sliding
split has at most `target_words` words; and every chunk whose group was
not started by a bridge (tag `false` in the instrumented chunker, whose
tag-projection is proved equal to the chunker) has at most `target_words`
words.  (For `max_overlap_words = 0` the bound fails on the code because
of the `l[-0:]` slice, see the counterexample.) -/
theorem C9_paragraph_chunk_size_bound :
    ∀ (target max_overlap : Nat) (paragraphs : List (List String)),
      1 ≤ target → 1 ≤ max_overlap →
      (∀ c ∈ paragraphs_to_chunks paragraphs target max_overlap,
          c.length ≤ target + max_overlap + 1) ∧
      (∀ (p : List String), ∀ c ∈ split_long_paragraph p target,
          c.length ≤ target) ∧
      (∀ x ∈ paragraphs_to_chunks_tagged paragraphs target max_overlap,
          x.1 = false → x.2.length ≤ target) ∧
      (paragraphs_to_chunks_tagged paragraphs target max_overlap).map Prod.snd =
        paragraphs_to_chunks paragraphs target max_overlap := by
  intro target max_overlap paragraphs ht hmo
  have hproj := ptcGoB_map_snd target max_overlap paragraphs [] 0 false
  have hbounds := ptcGoB_bounds target max_overlap ht hmo paragraphs [] 0 false
    (by simp) (fun _ => by omega) (fun _ => by omega)
  refine ⟨?_, ?_, ?_, hproj⟩
  · intro c hc
    rw [paragraphs_to_chunks, ← hproj] at hc
    obtain ⟨x, hx, rfl⟩ := List.mem_map.mp hc
    exact (hbounds x hx).1
  · intro p c hc
    exact split_long_paragraph_length_le p target c hc
  · intro x hx
    exact (hbounds x hx).2

/-- Witness for C9: a concrete two-paragraph input with `target = 2`,
`max_overlap = 1`; the bridged chunk has 4 = 2 + 1 + 1 words. -/
theorem C9_paragraph_chunk_size_bound_witness :
    List.length ["[...]", "b", "c", "d"] ≤ 2 + 1 + 1 ∧
    (paragraphs_to_chunks_tagged [["a", "b"], ["c", "d"]] 2 1).map Prod.snd =
      paragraphs_to_chunks [["a", "b"], ["c", "d"]] 2 1 := by
  have h := C9_paragraph_chunk_size_bound 2 1 [["a", "b"], ["c", "d"]]
    (by decide) (by decide)
  exact ⟨h.1 ["[...]", "b", "c", "d"] (by decide), h.2.2.2⟩

/-- Counterexample for C9 as stated: with `max_overlap_words = 0` the
claimed bound `target + 0 + 1` fails — the bridged chunk below has 5
words against the claimed bound of 3. -/
theorem C9_zero_overlap_counterexample :
    ¬ ∀ c ∈ paragraphs_to_chunks [["a", "b"], ["c", "d"]] 2 0,
        c.length ≤ 2 + 0 + 1 := by
  decide

theorem wordsGo_eq_nil_of_ws : ∀ l : List Char, l.all isPyWs = true →
    wordsGo [] l = [] := by
  intro l
  induction l with
  | nil => intro _; rfl
  | cons c rest ih =>
    intro h
    simp only [List.all_cons, Bool.and_eq_true] at h
    simp [wordsGo, h.1, ih h.2]

theorem pySplit_eq_nil_of_ws (text : String) (h : text.data.all isPyWs = true) :
    pySplit text = [] :=
  wordsGo_eq_nil_of_ws text.data h

theorem pyStrip_eq_nil_of_ws (l : List Char) (h : l.all isPyWs = true) :
    pyStrip l = [] := by
  have h1 : l.dropWhile isPyWs = [] := by
    rw [List.dropWhile_eq_nil_iff]
    intro x hx
    exact List.all_eq_true.mp h x hx
  simp [pyStrip, h1]

theorem normNewlines_all_ws : ∀ l : List Char, l.all isPyWs = true →
    (normNewlines l).all isPyWs = true := by
  intro l
  induction l using normNewlines.induct with
  | case1 => intro _; rfl
  | case2 rest ih =>
    intro h
    simp only [List.all_cons, Bool.and_eq_true] at h
    simp only [normNewlines, List.all_cons, Bool.and_eq_true]
    exact ⟨by decide, ih h.2.2⟩
  | case3 rest hne ih =>
    intro h
    simp only [List.all_cons, Bool.and_eq_true] at h
    simp only [normNewlines, List.all_cons, Bool.and_eq_true]
    exact ⟨by decide, ih h.2⟩
  | case4 c rest hc hne ih =>
    intro h
    simp only [List.all_cons, Bool.and_eq_true] at h
    simp only [normNewlines, List.all_cons, Bool.and_eq_true]
    exact ⟨h.1, ih h.2⟩

theorem split_into_paragraphs_eq_nil_of_ws (text : String)
    (h : text.data.all isPyWs = true) : split_into_paragraphs text = [] := by
  have h1 : pyStrip (normNewlines text.data) = [] :=
    pyStrip_eq_nil_of_ws _ (normNewlines_all_ws _ h)
  simp [split_into_paragraphs, h1, splitParasGo, wordsGo]

theorem split_into_paragraphs_ne_nil (text : String) :
    ∀ p ∈ split_into_paragraphs text, p ≠ [] := by
  intro p hp
  simp only [split_into_paragraphs, List.mem_filter, Bool.not_eq_eq_eq_not,
    Bool.not_true] at hp
  intro hcon
  subst hcon
  simp at hp

theorem ptcGo_ne_nil (target max_overlap : Nat) (ht : 1 ≤ target) :
    ∀ rest group cnt,
      (∀ p ∈ rest, p ≠ []) →
      (group ≠ [] → group.flatten ≠ []) →
      ∀ c ∈ ptcGo target max_overlap rest group cnt, c ≠ [] := by
  intro rest
  induction rest with
  | nil =>
    intro group cnt _ hgr c hc
    by_cases hg : group = []
    · simp [ptcGo, hg] at hc
    · simp only [ptcGo, if_neg hg, List.mem_singleton] at hc
      subst hc
      exact hgr hg
  | cons p rest ih =>
    intro group cnt hps hgr c hc
    have hp : p ≠ [] := hps p (by simp)
    have hrest : ∀ q ∈ rest, q ≠ [] := fun q hq => hps q (by simp [hq])
    by_cases h1 : target < p.length
    · simp only [ptcGo, if_pos h1, List.mem_append] at hc
      rcases hc with (hc0 | hcs) | hc2
      · by_cases hg : group = []
        · simp [hg] at hc0
        · simp only [if_neg hg, List.mem_singleton] at hc0
          subst hc0
          exact hgr hg
      · exact split_long_paragraph_ne_nil p target ht hp c hcs
      · exact ih [] 0 hrest (fun h => absurd rfl h) c hc2
    · by_cases h2 : group ≠ [] ∧ target < cnt + p.length
      · simp only [ptcGo, if_neg h1, if_pos h2, List.mem_cons] at hc
        rcases hc with hc0 | hc1
        · subst hc0
          exact hgr h2.1
        · refine ih _ _ hrest ?_ c hc1
          intro _
          simp only [List.flatten_cons, List.flatten_nil, List.append_nil]
          exact fun hcon => hp (List.append_eq_nil.mp hcon).2
      · simp only [ptcGo, if_neg h1, if_neg h2] at hc
        refine ih _ _ hrest ?_ c hc
        intro _
        simp only [List.flatten_append, List.flatten_cons, List.flatten_nil,
          List.append_nil]
        exact fun hcon => hp (List.append_eq_nil.mp hcon).2

/-- C4.  Non-empty chunk invariant, for both strategies: a text whose
characters are all whitespace (in particular the empty text) yields the
empty chunk sequence, and for a positive word target no produced chunk is
empty (in the word-list representation a chunk is non-whitespace text
exactly when its word list is non-empty, words of `.split()` being
non-empty and whitespace-free). -/
theorem C4_nonempty_invariant :
    ∀ (text : String) (target overlap max_overlap : Nat),
      (text.data.all isPyWs = true →
          split_into_chunks text target overlap = some [] ∧
          fulltext_paragraph_chunks text target max_overlap = []) ∧
      (1 ≤ target →
          (∀ l, split_into_chunks text target overlap = some l →
              ∀ c ∈ l, c ≠ []) ∧
          (∀ c ∈ fulltext_paragraph_chunks text target max_overlap, c ≠ [])) := by
  intro text target overlap max_overlap
  constructor
  · intro hws
    constructor
    · have hw := pySplit_eq_nil_of_ws text hws
      simp [split_into_chunks, hw, split_into_chunks_spans, chunkSpansAux]
    · have hp := split_into_paragraphs_eq_nil_of_ws text hws
      simp [fulltext_paragraph_chunks, hp, paragraphs_to_chunks, ptcGo]
  · intro ht
    constructor
    · intro l hl c hc
      simp only [split_into_chunks] at hl
      cases hspans : split_into_chunks_spans (pySplit text).length target overlap with
      | none => rw [hspans] at hl; simp at hl
      | some spans =>
        rw [hspans] at hl
        simp only [Option.map_some', Option.some_inj] at hl
        subst hl
        obtain ⟨sp, hsp, rfl⟩ := List.mem_map.mp hc
        obtain ⟨hlt, hend⟩ :=
          chunkSpansAux_mem (pySplit text).length target overlap _ _ spans hspans sp hsp
        have hpos : 0 < (((pySplit text).drop sp.1).take (sp.2 - sp.1)).length := by
          simp only [List.length_take, List.length_drop]
          omega
        exact List.length_pos.mp hpos
    · intro c hc
      exact ptcGo_ne_nil target max_overlap ht _ [] 0
        (split_into_paragraphs_ne_nil text) (fun h => absurd rfl h) c hc

/-- Witness for C4: whitespace-only input yields no chunks for both
strategies, and on the concrete text "a b c d" the produced chunks are
non-empty. -/
theorem C4_nonempty_invariant_witness :
    (split_into_chunks "   " 2 0 = some [] ∧
      fulltext_paragraph_chunks "   " 2 1 = []) ∧
    (["a", "b"] : List String) ≠ [] ∧ (["c", "d"] : List String) ≠ [] := by
  refine ⟨(C4_nonempty_invariant "   " 2 0 1).1 (by decide), ?_, ?_⟩
  · exact ((C4_nonempty_invariant "a b c d" 2 0 1).2 (by decide)).1
      [["a", "b"], ["c", "d"]] (by decide) ["a", "b"] (by decide)
  · exact ((C4_nonempty_invariant "a b c d" 2 0 1).2 (by decide)).2
      ["c", "d"] (by decide)

theorem char_ofNat_toNat_valid (n : Nat) (hn : n.isValidChar) :
    (Char.ofNat n).toNat = n := by
  rw [Char.ofNat, dif_pos hn]
  rfl

theorem char_toUpper_idem (c : Char) : c.toUpper.toUpper = c.toUpper := by
  simp only [Char.toUpper]
  by_cases h : c.toNat ≥ 97 ∧ c.toNat ≤ 122
  · rw [if_pos h]
    have hv : (c.toNat - 32).isValidChar := Or.inl (by omega)
    have ht : (Char.ofNat (c.toNat - 32)).toNat = c.toNat - 32 :=
      char_ofNat_toNat_valid _ hv
    rw [if_neg (by rw [ht]; omega)]
  · rw [if_neg h, if_neg h]

theorem char_isDigit_toNat {c : Char} (h : c.isDigit = true) :
    48 ≤ c.toNat ∧ c.toNat ≤ 57 := by
  simp only [Char.isDigit, Bool.and_eq_true, decide_eq_true_eq] at h
  exact ⟨UInt32.le_toNat_of_le (by decide) h.1, UInt32.toNat_le_of_le (by decide) h.2⟩

theorem digit_not_ws {c : Char} (h : c.isDigit = true) : isPyWs c = false := by
  obtain ⟨h1, h2⟩ := char_isDigit_toNat h
  simp only [isPyWs, Char.isWhitespace, Bool.or_eq_false_iff,
    decide_eq_false_iff_not]
  refine ⟨⟨⟨?_, ?_⟩, ?_⟩, ?_⟩ <;>
    · intro hc
      have := congrArg Char.toNat hc
      simp only [show (' '.toNat = 32) from rfl, show ('\t'.toNat = 9) from rfl,
        show ('\r'.toNat = 13) from rfl, show ('\n'.toNat = 10) from rfl] at this
      omega

theorem digit_toUpper {c : Char} (h : c.isDigit = true) : c.toUpper = c := by
  obtain ⟨h1, h2⟩ := char_isDigit_toNat h
  simp only [Char.toUpper]
  rw [if_neg (by omega)]

theorem dropWhile_of_no_ws {l : List Char} (h : ∀ c ∈ l, isPyWs c = false) :
    l.dropWhile isPyWs = l := by
  cases l with
  | nil => rfl
  | cons c t => simp [List.dropWhile_cons, h c (List.mem_cons_self c t)]

theorem pyStrip_of_no_ws {l : List Char} (h : ∀ c ∈ l, isPyWs c = false) :
    pyStrip l = l := by
  rw [pyStrip, dropWhile_of_no_ws h,
    dropWhile_of_no_ws (fun c hc => h c (List.mem_reverse.mp hc)),
    List.reverse_reverse]

theorem pyUpper_of_digits {l : List Char} (h : ∀ c ∈ l, c.isDigit = true) :
    pyUpper l = l := by
  rw [pyUpper]
  rw [List.map_congr_left (fun c hc => digit_toUpper (h c hc) : ∀ c ∈ l, c.toUpper = id c)]
  exact List.map_id l

theorem trailsWith_txtTail_digits {l : List Char} (hne : l ≠ [])
    (hmem : ∀ c ∈ l, c.isDigit = true) : trailsWith txtTail l = false := by
  rw [trailsWith]
  cases hrev : l.reverse with
  | nil => exact absurd (List.reverse_eq_nil_iff.mp hrev) hne
  | cons c t =>
    have hc : c ∈ l := List.mem_reverse.mp (hrev ▸ List.mem_cons_self c t)
    have hdig := hmem c hc
    have hTne : ('T' : Char) ≠ c := by
      intro he
      have := congrArg Char.toNat he
      have h48 := char_isDigit_toNat hdig
      simp only [show ('T'.toNat = 84) from rfl] at this
      omega
    simp [txtTail, leadsWith, hTne]

theorem leadsWith_pmcLead_digits {l : List Char}
    (hmem : ∀ c ∈ l, c.isDigit = true) : leadsWith pmcLead l = false := by
  cases l with
  | nil => rfl
  | cons c t =>
    have hdig := hmem c (List.mem_cons_self c t)
    have hPne : ('P' : Char) ≠ c := by
      intro he
      have := congrArg Char.toNat he
      have h48 := char_isDigit_toNat hdig
      simp only [show ('P'.toNat = 80) from rfl] at this
      omega
    simp [pmcLead, leadsWith, hPne]

theorem leadsWith_self_append : ∀ (as bs : List Char),
    leadsWith as (as ++ bs) = true := by
  intro as bs
  induction as with
  | nil => rfl
  | cons a t ih => simp [leadsWith, ih]

theorem pmcCore_fixed {z : List Char} (hs : pyStrip z = z) (hu : pyUpper z = z)
    (ht : trailsWith txtTail z = false) : pmcCore z = z := by
  rw [pmcCore, hs, hu, ht]
  simp

theorem normPmcidL_idem_aux (raw : List Char)
    (h1 : pyStrip (normPmcidL raw) = normPmcidL raw)
    (h2 : pyUpper (normPmcidL raw) = normPmcidL raw)
    (h3 : trailsWith txtTail (normPmcidL raw) = false) :
    normPmcidL (normPmcidL raw) = normPmcidL raw := by
  by_cases hraw : raw = []
  · subst hraw; rfl
  · by_cases hynil : normPmcidL raw = []
    · rw [hynil]; rfl
    · have hcore := pmcCore_fixed h1 h2 h3
      have hbranch : leadsWith pmcLead (normPmcidL raw) = true ∨
          (leadsWith pmcLead (normPmcidL raw) = false ∧
            ¬(normPmcidL raw ≠ [] ∧ (normPmcidL raw).all Char.isDigit = true)) := by
        rw [normPmcidL, if_neg hraw]
        by_cases hb2 : leadsWith pmcLead (pmcCore raw) = true
        · rw [if_pos hb2]
          exact Or.inl hb2
        · rw [if_neg hb2]
          by_cases hd : pmcCore raw ≠ [] ∧ (pmcCore raw).all Char.isDigit = true
          · rw [if_pos hd]
            exact Or.inl (leadsWith_self_append pmcLead (pmcCore raw))
          · rw [if_neg hd]
            exact Or.inr ⟨Bool.not_eq_true _ ▸ Bool.of_not_eq_true hb2, hd⟩
      rw [normPmcidL, if_neg hynil, hcore]
      rcases hbranch with hb | ⟨hbf, hbd⟩
      · rw [if_pos hb]
      · rw [if_neg (by simp [hbf]), if_neg hbd]

theorem normPmcidL_digits {l : List Char} (hne : l ≠ [])
    (hd : l.all Char.isDigit = true) : normPmcidL l = pmcLead ++ l := by
  have hmem : ∀ c ∈ l, c.isDigit = true := List.all_eq_true.mp hd
  have hs : pyStrip l = l :=
    pyStrip_of_no_ws (fun c hc => digit_not_ws (hmem c hc))
  have hu : pyUpper l = l := pyUpper_of_digits hmem
  have htr : trailsWith txtTail l = false := trailsWith_txtTail_digits hne hmem
  have hld : leadsWith pmcLead l = false := leadsWith_pmcLead_digits hmem
  have hcore : pmcCore l = l := pmcCore_fixed hs hu htr
  rw [normPmcidL, if_neg hne, hcore, if_neg (by simp [hld]), if_pos ⟨hne, hd⟩]

theorem normPmcidL_canonical {l : List Char} (hld : leadsWith pmcLead l = true)
    (hs : pyStrip l = l) (hu : pyUpper l = l)
    (ht : trailsWith txtTail l = false) : normPmcidL l = l := by
  have hne : l ≠ [] := by
    intro h
    subst h
    simp [pmcLead, leadsWith] at hld
  have hcore : pmcCore l = l := pmcCore_fixed hs hu ht
  rw [normPmcidL, if_neg hne, hcore, if_pos hld]

/-- C6 (amended).  Identifier normalization with `norm_pmcid`: purely
numeric input gets the `"PMC"` prefix, and input already in canonical
form (a trimmed, uppercase, `"PMC"`-led string without a `".TXT"`
suffix) is returned unchanged.  Normalization is idempotent on every
identifier whose normalized form is trimmed, case-stable and does not
end in `".TXT"`.  It is NOT idempotent in general: the `".TXT"` suffix
is chopped only once per call, so an input like `"123.TXT.TXT"`
normalizes to `"123.TXT"`, which a second call changes again (see the
counterexample). -/
theorem C6_norm_pmcid :
    ∀ s : String,
      (pyStrip (norm_pmcid s).data = (norm_pmcid s).data →
        pyUpper (norm_pmcid s).data = (norm_pmcid s).data →
        trailsWith txtTail (norm_pmcid s).data = false →
        norm_pmcid (norm_pmcid s) = norm_pmcid s) ∧
      (s.data ≠ [] → s.data.all Char.isDigit = true →
        norm_pmcid s = "PMC" ++ s) ∧
      (leadsWith pmcLead s.data = true → pyStrip s.data = s.data →
        pyUpper s.data = s.data → trailsWith txtTail s.data = false →
        norm_pmcid s = s) := by
  intro s
  refine ⟨?_, ?_, ?_⟩
  · intro h1 h2 h3
    exact congrArg String.mk (normPmcidL_idem_aux s.data h1 h2 h3)
  · intro hne hd
    show String.mk (normPmcidL s.data) = "PMC" ++ s
    rw [normPmcidL_digits hne hd]
    rfl
  · intro hld hs hu ht
    show String.mk (normPmcidL s.data) = s
    rw [normPmcidL_canonical hld hs hu ht]

/-- Witness for C6 at concrete identifiers. -/
theorem C6_norm_pmcid_witness :
    norm_pmcid (norm_pmcid "pmc123") = norm_pmcid "pmc123" ∧
    norm_pmcid "123" = "PMC" ++ "123" ∧
    norm_pmcid "PMC7" = "PMC7" :=
  ⟨(C6_norm_pmcid "pmc123").1 (by decide) (by decide) (by decide),
   (C6_norm_pmcid "123").2.1 (by decide) (by decide),
   (C6_norm_pmcid "PMC7").2.2 (by decide) (by decide) (by decide) (by decide)⟩

/-- Counterexample for C6 as stated: `norm_pmcid` chops one `".TXT"`
suffix per call, so it is not idempotent on `"123.TXT.TXT"`. -/
theorem C6_double_txt_counterexample :
    norm_pmcid "123.TXT.TXT" = "123.TXT" ∧
    norm_pmcid (norm_pmcid "123.TXT.TXT") = "PMC123" ∧
    norm_pmcid (norm_pmcid "123.TXT.TXT") ≠ norm_pmcid "123.TXT.TXT" := by
  refine ⟨by decide, by decide, by decide⟩

/-- C7 (amended).  For a metadata-only article with title `"X"`, abstract
`"Y"` and no other fields, the pilot sliding-window pipeline's
`build_metadata_text` synthesizes exactly `"Title: X\n\nAbstract: Y"`
(absent fields skipped, no placeholder text); the production paragraph
pipeline's `meta_text_payload`, however, omits the `"Title: "` and
`"Abstract: "` labels and hands `"X\n\nY"` to the Chunker. -/
theorem C7_metadata_payload :
    build_metadata_text metaTitleXAbstractY = "Title: X\n\nAbstract: Y" ∧
    meta_text_payload metaTitleXAbstractY = "X\n\nY" :=
  ⟨by decide, by decide⟩

/-- Counterexample for C7 as stated: the payload the paragraph pipeline
hands to the Chunker is not `"Title: X\n\nAbstract: Y"`. -/
theorem C7_payload_label_counterexample :
    meta_text_payload metaTitleXAbstractY ≠ "Title: X\n\nAbstract: Y" ∧
    meta_text_payload metaTitleXAbstractY = "X\n\nY" :=
  ⟨by decide, by decide⟩

/-- C8.  Unknown-year routing: a metadata record whose year cannot be
extracted is grouped into the `None` bucket and processed by the
UNKNOWN_YEAR branch — every chunk it emits carries `year = none` and a
chunk id beginning with `"UNKNOWN_YEAR_"`, those chunks are written to
the unknown-year partition, and the record belongs to no numeric-year
group (so it is neither dropped, nor an error, nor assigned a synthetic
numeric year). -/
theorem C8_unknown_year_routing :
    ∀ (records : List (String × Meta)) (pmcid : String) (m : Meta)
      (target max_overlap : Nat),
      meta_year m = none → (pmcid, m) ∈ records →
      (∀ ch ∈ unknown_year_chunks pmcid m target max_overlap,
          ch.year = none ∧
          leadsWith ("UNKNOWN_YEAR_".data) ch.chunk_id.data = true) ∧
      (∀ ch ∈ unknown_year_chunks pmcid m target max_overlap,
          ch ∈ unknown_partition_chunks records target max_overlap) ∧
      (∀ y : Nat, (pmcid, m) ∉ meta_by_year_group records (some y)) := by
  intro records pmcid m target max_overlap hnone hmem
  refine ⟨?_, ?_, ?_⟩
  · intro ch hch
    obtain ⟨ch0, hch0, rfl⟩ := List.mem_map.mp hch
    refine ⟨rfl, ?_⟩
    show leadsWith ("UNKNOWN_YEAR_".data)
      ("UNKNOWN_YEAR_" ++ ch0.chunk_id.drop 2).data = true
    rw [String.data_append]
    exact leadsWith_self_append _ _
  · intro ch hch
    rw [unknown_partition_chunks]
    refine List.mem_flatMap.mpr ⟨(pmcid, m), ?_, hch⟩
    rw [meta_by_year_group]
    exact List.mem_filter.mpr ⟨hmem, by simp [hnone]⟩
  · intro y hy
    rw [meta_by_year_group] at hy
    have h2 := (List.mem_filter.mp hy).2
    simp [hnone] at h2

/-- A concrete metadata record whose year cannot be extracted. -/
def metaNoYearSample : Meta :=
  { title := some "T1", abstract := some "A1", date := some "n.d." }

/-- The chunk the UNKNOWN_YEAR branch emits for `metaNoYearSample`. -/
def chunkUnknownSample : ChunkRec :=
  { chunk_id := "UNKNOWN_YEAR_PMC1_META_0001"
    pmcid := "PMC1"
    year := none
    chunk_index := 1
    title := some "T1"
    journal := none
    source_type := "metadata_only"
    text := ["T1", "A1"] }

/-- Witness for C8 on a one-record corpus with an unparseable date. -/
theorem C8_unknown_year_routing_witness :
    chunkUnknownSample.year = none ∧
    leadsWith ("UNKNOWN_YEAR_".data) chunkUnknownSample.chunk_id.data = true ∧
    chunkUnknownSample ∈
      unknown_partition_chunks [("PMC1", metaNoYearSample)] 650 120 ∧
    ("PMC1", metaNoYearSample) ∉
      meta_by_year_group [("PMC1", metaNoYearSample)] (some 2019) := by
  have h := C8_unknown_year_routing [("PMC1", metaNoYearSample)] "PMC1"
    metaNoYearSample 650 120 (by decide) (List.mem_singleton.mpr rfl)
  exact ⟨(h.1 chunkUnknownSample (by decide)).1,
    (h.1 chunkUnknownSample (by decide)).2,
    h.2.1 chunkUnknownSample (by decide),
    h.2.2 2019⟩

theorem leadsWith_append_right {nd h : List Char} (x : List Char)
    (hl : leadsWith nd h = true) : leadsWith nd (h ++ x) = true := by
  induction nd generalizing h with
  | nil => rfl
  | cons a as ih =>
    cases h with
    | nil => simp [leadsWith] at hl
    | cons b t =>
      simp only [leadsWith, Bool.and_eq_true] at hl ⊢
      exact ⟨hl.1, ih hl.2⟩

theorem occursIn_nil_needle : ∀ l : List Char, occursIn [] l = true := by
  intro l
  cases l with
  | nil => rfl
  | cons c t => simp [occursIn, leadsWith]

theorem occursIn_append_right {nd h : List Char} (x : List Char)
    (ho : occursIn nd h = true) : occursIn nd (h ++ x) = true := by
  induction h with
  | nil =>
    cases nd with
    | nil => exact occursIn_nil_needle x
    | cons a as => simp [occursIn, leadsWith] at ho
  | cons c t ih =>
    simp only [occursIn, Bool.or_eq_true] at ho
    rcases ho with ho | ho
    · show occursIn nd (c :: (t ++ x)) = true
      simp only [occursIn, Bool.or_eq_true]
      exact Or.inl (leadsWith_append_right x ho)
    · show occursIn nd (c :: (t ++ x)) = true
      simp only [occursIn, Bool.or_eq_true]
      exact Or.inr (ih ho)

/-- C10.  Keyword-relevance monotonicity: if the classifier matches on
title and abstract alone, it also matches when any full-text string is
additionally supplied — appending text to the haystack preserves every
substring occurrence. -/
theorem C10_keyword_match_monotone :
    ∀ (a : KwArticle) (clean_text : String),
      article_matches_keywords a none = true →
      article_matches_keywords a (some clean_text) = true := by
  intro a clean_text h
  simp only [article_matches_keywords, List.any_eq_true] at h ⊢
  obtain ⟨kw, hkw, hocc⟩ := h
  refine ⟨kw, hkw, ?_⟩
  by_cases hct : clean_text = ""
  · rw [if_pos hct]
    exact hocc
  · rw [if_neg hct]
    exact occursIn_append_right _ hocc

/-- Witness for C10: an article whose title contains `"microbiome"`. -/
theorem C10_keyword_match_monotone_witness :
    article_matches_keywords
      { title := some "Gut microbiome study", abstract := none }
      (some "any full text") = true :=
  C10_keyword_match_monotone
    { title := some "Gut microbiome study", abstract := none }
    "any full text" (by decide)

/-- C5.  Boilerplate exclusion fails for the all-caps title: the
`_normalize_text` boundary-repair regex `^([A-Za-z]+)([A-Z])` rewrites
`"ACKNOWLEDGEMENTS"` to `"ACKNOWLEDGEMENT S"`, whose punctuation-stripped
lowercase form `"acknowledgement s"` is not in
`UNWANTED_SECTION_TITLES`, so the section is NOT skipped and the
extractor emits both the mangled title and the section's paragraph.  The
title-case variant `"Acknowledgements"` is skipped as the claim
demands. -/
theorem C5_allcaps_acknowledgements_not_excluded :
    normalize_text "ACKNOWLEDGEMENTS" = "ACKNOWLEDGEMENT S" ∧
    should_skip_section (normalize_text "Acknowledgements") = true ∧
    should_skip_section (normalize_text "ACKNOWLEDGEMENTS") = false ∧
    extract_body_from_sec 5
      [Node.title "Acknowledgements", Node.para "We thank all participants"] =
      [] ∧
    extract_body_from_sec 5
      [Node.title "ACKNOWLEDGEMENTS", Node.para "We thank all participants"] =
      ["ACKNOWLEDGEMENT S", "We thank all participants"] :=
  ⟨by decide, by decide, by decide, by decide, by decide⟩

end LabProject
